import Mathlib

/-!
Verification of the change-detection core of the site-monitoring program
(`monitor.py`).  The Python source is shallowly embedded: fetched pages are
values of a small HTML node tree (the result of the BeautifulSoup parse),
CSS selectors are modelled semantically as boolean predicates on element
nodes, MD5 is implemented directly on byte lists (Nat values below 256,
word arithmetic taken modulo 2^32), and the orchestration loop of `main`
is a pure function of the per-run network oracle and the previously
persisted snapshot.
-/

set_option maxRecDepth 100000

namespace Monitor

/-! ## Python string primitives

Python slicing, `str.replace`, `str.strip` and `str.lower` act on sequences
of code points, which matches Lean characters. -/

/-- Python slice `s[:n]`. -/
def pyTake (n : Nat) (s : String) : String := String.mk (s.data.take n)

/-- Python `s.replace(chr(10), chr(32))`: flatten newlines to spaces. -/
def replaceNL (s : String) : String :=
  String.mk (s.data.map (fun ch => if ch = '\n' then ' ' else ch))

/-- Python `s.strip()`: drop leading and trailing whitespace. -/
def pyStrip (s : String) : String :=
  String.mk (((s.data.dropWhile Char.isWhitespace).reverse.dropWhile
      Char.isWhitespace).reverse)

/-- Python `s.lower()` (ASCII case folding suffices for the fixed vocabulary). -/
def lowerStr (s : String) : String := String.mk (s.data.map Char.toLower)

/-- Substring test on character lists (Python `pat in s`). -/
def listContains (s pat : List Char) : Bool :=
  match s with
  | [] => decide (pat = [])
  | _ :: t => pat.isPrefixOf s || listContains t pat

/-- Python `pat in s` on strings. -/
def strContains (s pat : String) : Bool := listContains s.data pat.data

/-- Python `s.startswith(pat)`. -/
def strStartsWith (s pat : String) : Bool := pat.data.isPrefixOf s.data

/-! ## UTF-8 encoding (Python `str.encode()`) -/

/-- UTF-8 encoding of one code point, as bytes (Nat values below 256). -/
def utf8EncodeChar (c : Char) : List Nat :=
  let n := c.toNat
  if n < 128 then [n]
  else if n < 2048 then [192 + n / 64, 128 + n % 64]
  else if n < 65536 then [224 + n / 4096, 128 + n / 64 % 64, 128 + n % 64]
  else [240 + n / 262144, 128 + n / 4096 % 64, 128 + n / 64 % 64, 128 + n % 64]

/-- Python `s.encode()`: UTF-8 bytes of a string. -/
def strBytes (s : String) : List Nat := s.data.flatMap utf8EncodeChar

/-! ## MD5 (Python `hashlib.md5`)

A direct implementation of RFC 1321 over byte lists; 32-bit words are Nat
values reduced modulo `2 ^ 32`. -/

/-- The 32-bit word modulus. -/
def w32 : Nat := 4294967296

/-- Left rotation of a 32-bit word by `n` places. -/
def rotl (x n : Nat) : Nat := x % 2 ^ (32 - n) * 2 ^ n + x / 2 ^ (32 - n)

/-- Bitwise complement of a 32-bit word. -/
def bnot32 (x : Nat) : Nat := Nat.xor x (w32 - 1)

/-- The MD5 sine-derived constant table. -/
def md5K : List Nat :=
  [0xd76aa478, 0xe8c7b756, 0x242070db, 0xc1bdceee,
   0xf57c0faf, 0x4787c62a, 0xa8304613, 0xfd469501,
   0x698098d8, 0x8b44f7af, 0xffff5bb1, 0x895cd7be,
   0x6b901122, 0xfd987193, 0xa679438e, 0x49b40821,
   0xf61e2562, 0xc040b340, 0x265e5a51, 0xe9b6c7aa,
   0xd62f105d, 0x02441453, 0xd8a1e681, 0xe7d3fbc8,
   0x21e1cde6, 0xc33707d6, 0xf4d50d87, 0x455a14ed,
   0xa9e3e905, 0xfcefa3f8, 0x676f02d9, 0x8d2a4c8a,
   0xfffa3942, 0x8771f681, 0x6d9d6122, 0xfde5380c,
   0xa4beea44, 0x4bdecfa9, 0xf6bb4b60, 0xbebfbc70,
   0x289b7ec6, 0xeaa127fa, 0xd4ef3085, 0x04881d05,
   0xd9d4d039, 0xe6db99e5, 0x1fa27cf8, 0xc4ac5665,
   0xf4292244, 0x432aff97, 0xab9423a7, 0xfc93a039,
   0x655b59c3, 0x8f0ccc92, 0xffeff47d, 0x85845dd1,
   0x6fa87e4f, 0xfe2ce6e0, 0xa3014314, 0x4e0811a1,
   0xf7537e82, 0xbd3af235, 0x2ad7d2bb, 0xeb86d391]

/-- The MD5 per-round shift amounts. -/
def md5S : List Nat :=
  [7, 12, 17, 22, 7, 12, 17, 22, 7, 12, 17, 22, 7, 12, 17, 22,
   5, 9, 14, 20, 5, 9, 14, 20, 5, 9, 14, 20, 5, 9, 14, 20,
   4, 11, 16, 23, 4, 11, 16, 23, 4, 11, 16, 23, 4, 11, 16, 23,
   6, 10, 15, 21, 6, 10, 15, 21, 6, 10, 15, 21, 6, 10, 15, 21]

/-- MD5 working state: four 32-bit words. -/
structure MD5St where
  a : Nat
  b : Nat
  c : Nat
  d : Nat

/-- The MD5 round function F, G, H or I according to the round index. -/
def md5F (i b c d : Nat) : Nat :=
  if i < 16 then Nat.lor (Nat.land b c) (Nat.land (bnot32 b) d)
  else if i < 32 then Nat.lor (Nat.land d b) (Nat.land (bnot32 d) c)
  else if i < 48 then Nat.xor b (Nat.xor c d)
  else Nat.xor c (Nat.lor b (bnot32 d))

/-- The MD5 message-word index for round `i`. -/
def md5G (i : Nat) : Nat :=
  if i < 16 then i
  else if i < 32 then (5 * i + 1) % 16
  else if i < 48 then (3 * i + 5) % 16
  else 7 * i % 16

/-- One of the 64 MD5 rounds. -/
def md5Step (M : List Nat) (st : MD5St) (i : Nat) : MD5St :=
  let f := md5F i st.b st.c st.d
  let sum := (st.a + f + md5K.getD i 0 + M.getD (md5G i) 0) % w32
  let nb := (st.b + rotl sum (md5S.getD i 0)) % w32
  ⟨st.d, nb, st.b, st.c⟩

/-- The 16 little-endian 32-bit words of one 64-byte block. -/
def wordsOf (blk : List Nat) : List Nat :=
  (List.range 16).map fun j =>
    blk.getD (4 * j) 0 + 256 * blk.getD (4 * j + 1) 0 +
      65536 * blk.getD (4 * j + 2) 0 + 16777216 * blk.getD (4 * j + 3) 0

/-- Process one 64-byte block. -/
def md5Block (st : MD5St) (blk : List Nat) : MD5St :=
  let e := (List.range 64).foldl (md5Step (wordsOf blk)) st
  ⟨(st.a + e.a) % w32, (st.b + e.b) % w32, (st.c + e.c) % w32, (st.d + e.d) % w32⟩

/-- The 8 little-endian bytes of the 64-bit message bit length. -/
def lenBytes (n : Nat) : List Nat := (List.range 8).map fun i => n / 256 ^ i % 256

/-- MD5 padding: one 0x80 byte, zeros to 56 mod 64, then the bit length. -/
def padMsg (msg : List Nat) : List Nat :=
  msg ++ [128] ++ List.replicate ((119 - msg.length % 64) % 64) 0 ++
    lenBytes (8 * msg.length % 2 ^ 64)

/-- Split a byte list into 64-byte chunks. -/
def chunks64 : List Nat → List (List Nat)
  | [] => []
  | a :: rest => (a :: rest).take 64 :: chunks64 ((a :: rest).drop 64)
termination_by l => l.length
decreasing_by
  simp only [List.length_drop, List.length_cons]
  omega

/-- The 4 little-endian bytes of one 32-bit word. -/
def wordLE (x : Nat) : List Nat := [x % 256, x / 256 % 256, x / 65536 % 256, x / 16777216 % 256]

/-- The 16-byte MD5 digest of a byte list. -/
def md5Digest (msg : List Nat) : List Nat :=
  let fin := (chunks64 (padMsg msg)).foldl md5Block
    ⟨0x67452301, 0xefcdab89, 0x98badcfe, 0x10325476⟩
  wordLE fin.a ++ wordLE fin.b ++ wordLE fin.c ++ wordLE fin.d

/-- Lowercase hex digit. -/
def hexChar (n : Nat) : Char := if n < 10 then Char.ofNat (48 + n) else Char.ofNat (87 + n)

/-- Two lowercase hex digits of a byte. -/
def hexByte (b : Nat) : List Char := [hexChar (b / 16 % 16), hexChar (b % 16)]

/-- Python `hashlib.md5(s.encode()).hexdigest()`. -/
def md5Hex (s : String) : String := String.mk ((md5Digest (strBytes s)).flatMap hexByte)

/-! ## HTML documents

A parsed page (the result of `BeautifulSoup(html, "html.parser")`) is a
forest of nodes.  Only the attributes the program reads are modelled: the
tag name, the (multi-valued) class attribute, and the href attribute. -/

/-- A node of the parsed HTML tree. -/
inductive Node where
  | elem (tag : String) (classes : List String) (href : Option String)
      (children : List Node) : Node
  | text (s : String) : Node

/-- Tag name of a node (text nodes have none). -/
def nodeTag : Node → String
  | .elem t _ _ _ => t
  | .text _ => ""

/-- Class attribute values of a node. -/
def nodeClasses : Node → List String
  | .elem _ cs _ _ => cs
  | .text _ => []

/-- The href attribute of a node (`link_elem.get` in the source). -/
def nodeHref : Node → Option String
  | .elem _ _ h _ => h
  | .text _ => none

/-- Children of a node. -/
def nodeChildren : Node → List Node
  | .elem _ _ _ ch => ch
  | .text _ => []

mutual

/-- Element nodes of a subtree in document (pre-order) order. -/
def nodeElems : Node → List Node
  | .text _ => []
  | .elem t cs h ch => Node.elem t cs h ch :: elemsList ch

/-- Element nodes of a forest in document (pre-order) order. -/
def elemsList : List Node → List Node
  | [] => []
  | n :: rest => nodeElems n ++ elemsList rest

end

mutual

/-- The text fragments (`NavigableString` contents) of a subtree, in order.
BeautifulSoup `get_text` collects every text descendant, including the
contents of script and style elements. -/
def nodeStrings : Node → List String
  | .text s => [s]
  | .elem _ _ _ ch => stringsList ch

/-- The text fragments of a forest, in order. -/
def stringsList : List Node → List String
  | [] => []
  | n :: rest => nodeStrings n ++ stringsList rest

end

/-- `soup.get_text()`: concatenation of every text fragment of the page. -/
def getText (doc : List Node) : String := String.join (stringsList doc)

/-- `element.get_text(strip=True)`: each fragment stripped, then joined. -/
def getTextStrip (n : Node) : String := String.join ((nodeStrings n).map pyStrip)

/-! ## CSS selectors

The program is generic in its configured CSS selectors; their semantics is
modelled extensionally as a boolean predicate deciding which element nodes
a selector matches.  `soup.select` returns all matching elements of the
document in document order; `container.select_one` returns the first
matching strict descendant of the container. -/

/-- A CSS selector, modelled by the set of element nodes it matches. -/
abbrev Sel : Type := Node → Bool

/-- `soup.select(selector)`: all matching elements in document order. -/
def select (doc : List Node) (s : Sel) : List Node := (elemsList doc).filter s

/-- `container.select_one(selector)`: first matching descendant. -/
def selectOneIn (c : Node) (s : Sel) : Option Node :=
  ((elemsList (nodeChildren c)).filter s).head?

/-- The per-site selector configuration (`selectors.get` with default `[]`
for each absent key). -/
structure Selectors where
  container : List Sel
  title : List Sel
  date : List Sel
  description : List Sel
  link : List Sel

/-- A selector configuration with every key absent. -/
def noSelectors : Selectors := ⟨[], [], [], [], []⟩

/-! ## `urljoin`

`urllib.parse.urljoin` restricted to the cases arising for http(s) pages:
an empty href keeps the base, an absolute URL (with scheme) wins outright,
scheme-relative and host-relative hrefs reuse the base's scheme or origin,
and other hrefs are resolved against the base's directory. -/

/-- Index of the first occurrence of `pat` in `s`, if any. -/
def findSub (s pat : List Char) : Option Nat :=
  match s with
  | [] => if pat = [] then some 0 else none
  | _ :: t =>
    if pat.isPrefixOf s then some 0
    else (findSub t pat).map (· + 1)

/-- The scheme part of a URL (text before a colon-slash-slash), if present. -/
def schemeOf (base : String) : Option String :=
  (findSub base.data "://".data).map fun i => String.mk (base.data.take i)

/-- The scheme and host of a URL (text up to the first slash after the
authority), if the URL has a scheme. -/
def originOf (base : String) : Option String :=
  (findSub base.data "://".data).map fun i =>
    let rest := base.data.drop (i + 3)
    String.mk (base.data.take (i + 3) ++ rest.takeWhile (fun ch => ch ≠ '/'))

/-- The base URL up to and including the final slash of its path. -/
def baseDir (base : String) : String :=
  match findSub base.data "://".data with
  | none => base
  | some i =>
    let pathStart := i + 3 + ((base.data.drop (i + 3)).takeWhile (fun ch => ch ≠ '/')).length
    let path := base.data.drop pathStart
    let keep := (path.reverse.dropWhile (fun ch => ch ≠ '/')).reverse
    if keep = [] then String.mk (base.data.take pathStart) ++ "/"
    else String.mk (base.data.take pathStart ++ keep)

/-- `urljoin(base, href)` for the http(s) cases the program meets. -/
def urljoin (base href : String) : String :=
  if href = "" then base
  else if (findSub href.data "://".data).isSome then href
  else if strStartsWith href "//" then
    match schemeOf base with
    | some sc => sc ++ ":" ++ href
    | none => href
  else if strStartsWith href "/" then
    match originOf base with
    | some o => o ++ href
    | none => href
  else baseDir base ++ href

/-! ## Event records

A Python dict with string keys and string values, in insertion order.
All records the program builds have pairwise distinct keys. -/

/-- An event record: association list of string fields in insertion order. -/
abbrev Event : Type := List (String × String)

/-- Python `event.get(k)` / `event[k]`: first binding of a key. -/
def getField (e : Event) (k : String) : Option String := List.lookup k e

/-- Python `event[k] = v`: overwrite the binding in place, else append. -/
def setField (e : Event) (k v : String) : Event :=
  match e with
  | [] => [(k, v)]
  | (k0, v0) :: rest => if k0 = k then (k, v) :: rest else (k0, v0) :: setField rest k v

/-- Lexicographic code-point comparison of character lists (Python string
ordering, as used by `sort_keys`). -/
def listLe : List Char → List Char → Bool
  | [], _ => true
  | _ :: _, [] => false
  | a :: as, b :: bs =>
    if a.toNat < b.toNat then true
    else if b.toNat < a.toNat then false
    else listLe as bs

/-- Python string ordering. -/
def strLe (a b : String) : Bool := listLe a.data b.data

/-- Insert a binding into a key-sorted association list. -/
def insertByKey (p : String × String) : List (String × String) → List (String × String)
  | [] => [p]
  | q :: rest => if strLe p.1 q.1 then p :: q :: rest else q :: insertByKey p rest

/-- Canonical serialization `json.dumps(e, sort_keys=True)`: with string
values the dumped text is determined exactly by the key-sorted sequence of
bindings, so the serialization is modelled by that sequence (which is also
the dict `json.loads` gives back from it). -/
def canonSer (e : Event) : Event := e.foldr insertByKey []

/-! ## Extraction (`extract_events_generic`) -/

/-- The fixed class vocabulary of the generic container heuristic. -/
def fallbackWords : List String := ["event", "post", "item", "entry"]

/-- The class filter of `find_all`: some class value contains one of the
vocabulary words case-insensitively (absent or empty class never matches). -/
def classVocabMatch (n : Node) : Bool :=
  (nodeClasses n).any fun cls =>
    fallbackWords.any fun w => strContains (lowerStr cls) w

/-- `soup.find_all` fallback: article or div elements whose class text
mentions the vocabulary, in document order. -/
def fallbackContainers (doc : List Node) : List Node :=
  (elemsList doc).filter fun n =>
    (nodeTag n == "article" || nodeTag n == "div") && classVocabMatch n

/-- Candidate containers: matches of every configured selector accumulated
in selector order, the generic heuristic when that list is empty, capped
at the first 20. -/
def candidateContainers (doc : List Node) (csels : List Sel) : List Node :=
  let containers := csels.flatMap fun s => select doc s
  let containers := if containers.isEmpty then fallbackContainers doc else containers
  containers.take 20

/-- First selector match for a field (`break` on the first truthy
`select_one` result). -/
def firstMatch (c : Node) (ss : List Sel) : Option Node :=
  ss.findSome? fun s => selectOneIn c s

/-- Per-selector outcome of the link loop: the matched element's href, but
only when the element exists and its href is truthy. -/
def linkVal (c : Node) (s : Sel) : Option String :=
  match selectOneIn c s with
  | none => none
  | some n =>
    match nodeHref n with
    | none => none
    | some h => if h = "" then none else some h

/-- The link loop: first selector whose element carries a truthy href. -/
def firstLink (c : Node) (ss : List Sel) : Option String := ss.findSome? fun s => linkVal c s

/-- Optional field of a record under construction. -/
def optField (k : String) : Option String → Event
  | none => []
  | some v => [(k, v)]

/-- The record built from one candidate container. -/
def extractEvent (url : String) (sels : Selectors) (c : Node) : Event :=
  optField "title" ((firstMatch c sels.title).map fun n => getTextStrip n) ++
  optField "date" ((firstMatch c sels.date).map fun n => getTextStrip n) ++
  optField "description" ((firstMatch c sels.description).map fun n =>
    pyTake 300 (getTextStrip n)) ++
  optField "link" ((firstLink c sels.link).map fun h => urljoin url h)

/-- Truthiness of the title field (`event.get` in the viability test). -/
def titleOk (e : Event) : Bool := decide ((getField e "title").getD "" ≠ "")

/-- The structured events: one record per candidate container, keeping only
those whose title is present and non-empty. -/
def structuredEvents (doc : List Node) (url : String) (sels : Selectors) : List Event :=
  ((candidateContainers doc sels.container).map (extractEvent url sels)).filter titleOk

/-- The whole-page fallback record: short content hash and flattened
500-character preview. -/
def fallbackRecord (doc : List Node) : Event :=
  [("page_hash", pyTake 16 (md5Hex (getText doc))),
   ("content_preview", replaceNL (pyTake 500 (getText doc)))]

/-- A fetched page: the raw response text together with its parse.  The
program only inspects the raw text through its truthiness test and only
inspects the parse through the tree operations above. -/
structure Page where
  raw : String
  doc : List Node

/-- `extract_events_generic(html, url, selectors)`.  A falsy `html`
argument (absent page or empty text) yields no events at all; otherwise
the structured events, or the single fallback record when none survive. -/
def extract_events_generic (html : Option Page) (url : String) (sels : Selectors) :
    List Event :=
  match html with
  | none => []
  | some page =>
    if page.raw = "" then []
    else if (structuredEvents page.doc url sels).isEmpty then [fallbackRecord page.doc]
    else structuredEvents page.doc url sels

/-! ## Per-site fetch (`fetch_site_events`) -/

/-- A site entry of the configuration file. -/
structure SiteConfig where
  name : String
  url : String
  enabled : Bool
  selectors : Selectors

/-- The per-run network: what `fetch_page_content` returns for each URL
(`none` on a request failure). -/
abbrev Net : Type := String → Option Page

/-- `fetch_site_events(site_config)`: `None` when the fetch fails or the
body is falsy, otherwise every extracted event tagged with the configured
site name and URL. -/
def fetch_site_events (net : Net) (cfg : SiteConfig) : Option (List Event) :=
  match net cfg.url with
  | none => none
  | some page =>
    if page.raw = "" then none
    else some ((extract_events_generic (some page) cfg.url cfg.selectors).map fun e =>
      setField (setField e "source" cfg.name) "source_url" cfg.url)

/-! ## Snapshot and change detection -/

/-- The persisted snapshot: site name to last observed events, in insertion
order (`last_events.json`). -/
abbrev Snapshot : Type := List (String × List Event)

/-- `load_last_events()`: the parsed snapshot file, or an empty mapping
when the file does not exist. -/
def load_last_events (file : Option Snapshot) : Snapshot := file.getD []

/-- `find_new_events(current_events, last_events, site_name)`: canonical
serializations of the current records, deduplicated as a set, minus the
serializations of the site's stored records; each survivor is returned as
the record parsed back from its serialization. -/
def find_new_events (current : List Event) (last : Snapshot) (site : String) :
    List Event :=
  let lastSet := ((List.lookup site last).getD []).map canonSer
  ((current.map canonSer).dedup).filter fun x => decide (x ∉ lastSet)

/-! ## The orchestration loop (`main`) -/

/-- Python dict assignment on a string-keyed mapping. -/
def dictSet {α : Type} (m : List (String × α)) (k : String) (v : α) :
    List (String × α) :=
  match m with
  | [] => [(k, v)]
  | (k0, v0) :: rest => if k0 = k then (k, v) :: rest else (k0, v0) :: dictSet rest k v

/-- The two dictionaries the site loop accumulates. -/
structure LoopAcc where
  currentAll : List (String × List Event)
  newEvents : List (String × List Event)

/-- One iteration of the site loop: a failed fetch leaves both
dictionaries untouched, a successful one records the current events and,
when non-empty, the detected new events. -/
def stepSite (net : Net) (last : Snapshot) (acc : LoopAcc) (site : SiteConfig) :
    LoopAcc :=
  match fetch_site_events net site with
  | none => acc
  | some evs =>
    let ca := dictSet acc.currentAll site.name evs
    let ne := find_new_events evs last site.name
    if ne.isEmpty then ⟨ca, acc.newEvents⟩ else ⟨ca, dictSet acc.newEvents site.name ne⟩

/-- The site loop over a list of sites. -/
def processSites (net : Net) (last : Snapshot) (acc : LoopAcc) :
    List SiteConfig → LoopAcc
  | [] => acc
  | s :: rest => processSites net last (stepSite net last acc s) rest

/-- The observable outcome of one run of `main`. -/
structure RunResult where
  /-- `current_all_events` after the loop. -/
  currentAll : List (String × List Event)
  /-- `all_new_events` after the loop. -/
  newEvents : List (String × List Event)
  /-- `total_new`. -/
  totalNew : Nat
  /-- The `has_updates` output flag. -/
  hasUpdates : Bool
  /-- Whether the report file (`email_content.txt`) is written this run. -/
  reportWritten : Bool
  /-- The contents of `last_events.json` after the run, given its prior
  contents: `save_events` dumps `current_all_events` wholesale, and runs
  in the no-update branch skip the dump when that dict is empty. -/
  saved : Snapshot

/-- `main()` as a function of the configured sites, the network, and the
previously persisted snapshot. -/
def main (sites : List SiteConfig) (net : Net) (last : Snapshot) : RunResult :=
  let enabled := sites.filter fun s => s.enabled
  let acc := processSites net last ⟨[], []⟩ enabled
  let totalNew := (acc.newEvents.map fun p => p.2.length).sum
  { currentAll := acc.currentAll
    newEvents := acc.newEvents
    totalNew := totalNew
    hasUpdates := decide (0 < totalNew)
    reportWritten := decide (0 < totalNew)
    saved :=
      if 0 < totalNew then acc.currentAll
      else if acc.currentAll.isEmpty then last
      else acc.currentAll }

/-! ## Spec-side comparison definitions

These two definitions follow the wording of the specification (not the
source); they exist only to be compared against the implementation. -/

mutual

/-- Text fragments of a subtree with script and style subtrees excluded;
follows the spec wording "whole-page text content (scripts/styles
excluded)". -/
def nodeStringsNS : Node → List String
  | .text s => [s]
  | .elem t _ _ ch => if t = "script" ∨ t = "style" then [] else stringsListNS ch

/-- Text fragments of a forest with script and style subtrees excluded. -/
def stringsListNS : List Node → List String
  | [] => []
  | n :: rest => nodeStringsNS n ++ stringsListNS rest

end

/-- Whole-page text with scripts and styles excluded, per the spec wording. -/
def getTextNoScript (doc : List Node) : String := String.join (stringsListNS doc)

/-- Candidate containers as the claim words them: the set of elements
matching any configured selector, capped at the first 20 in document
order. -/
def candidatesClaim (doc : List Node) (csels : List Sel) : List Node :=
  ((elemsList doc).filter fun n => csels.any fun s => s n).take 20

/-- The link field as the claim words it: the first element matched by any
link selector wins and no further selectors are tried for the field. -/
def firstLinkClaim (c : Node) (ss : List Sel) : Option String :=
  (firstMatch c ss).bind fun n =>
    match nodeHref n with
    | none => none
    | some h => if h = "" then none else some h

/-! ## Concrete fixtures

Small concrete pages, selector configurations and sites used by the
witness and counterexample theorems. -/

/-- The tag-name CSS selector (for instance the configured string "h2"). -/
def isTag (t : String) : Sel := fun n => nodeTag n == t

/-- The class CSS selector (for instance the configured string ".x"). -/
def hasClass (w : String) : Sel := fun n => (nodeClasses n).contains w

/-- A page with one article container holding an h2 title. -/
def pageB : Page :=
  ⟨"<article class=\"event\"><h2>T</h2></article>",
   [Node.elem "article" ["event"] none [Node.elem "h2" [] none [Node.text "T"]]]⟩

/-- Selector configuration with only a title selector (containers found by
the generic heuristic). -/
def selsB : Selectors := ⟨[], [isTag "h2"], [], [], []⟩

/-- A configured site serving `pageB`. -/
def siteB : SiteConfig := ⟨"B", "http://b/", true, selsB⟩

/-- A configured site whose fetch fails under `netB`. -/
def siteA : SiteConfig := ⟨"A", "http://a/", true, selsB⟩

/-- A network oracle: only `http://b/` resolves. -/
def netB : Net := fun u => if u = "http://b/" then some pageB else none

/-- The one event `fetch_site_events` produces for `siteB` under `netB`. -/
def evB : Event := [("title", "T"), ("source", "B"), ("source_url", "http://b/")]

/-- A page whose only text lives inside a script element. -/
def pageS : Page :=
  ⟨"<script>hello</script>", [Node.elem "script" [] none [Node.text "hello"]]⟩

/-- A page with an empty response body (its parse is the empty forest). -/
def pageE : Page := ⟨"", []⟩

/-- Two sibling containers, used to observe candidate order. -/
def docO : List Node :=
  [Node.elem "article" ["one"] none [], Node.elem "section" ["two"] none []]

/-- A container with an href-less anchor before an anchor with an href. -/
def cL : Node :=
  Node.elem "div" [] none
    [Node.elem "a" ["x"] none [Node.text "n1"],
     Node.elem "a" ["y"] (some "http://e/x") [Node.text "n2"]]

/-- Link selectors matching the two anchors of `cL` in order. -/
def selsL : Selectors := ⟨[], [], [], [], [hasClass "x", hasClass "y"]⟩

/-- A container holding one element per field for the claim-C8 witness. -/
def cW : Node :=
  Node.elem "div" [] none
    [Node.elem "h2" [] none [Node.text "T"],
     Node.elem "span" ["date"] none [Node.text "D"],
     Node.elem "p" [] none [Node.text "long text"],
     Node.elem "a" [] (some "http://e/x") [Node.text "more"]]

/-- One selector per field for the claim-C8 witness. -/
def selsW : Selectors :=
  ⟨[], [isTag "h2"], [isTag "span"], [isTag "p"], [isTag "a"]⟩

/-! ## Association-list lemmas -/

theorem lookup_dictSet {α : Type} (m : List (String × α)) (k k' : String) (v : α) :
    List.lookup k' (dictSet m k v) = if k' = k then some v else List.lookup k' m := by
  induction m with
  | nil =>
    by_cases h : k' = k
    · simp [dictSet, List.lookup, h]
    · have hb : (k' == k) = false := beq_eq_false_iff_ne.mpr h
      simp [dictSet, List.lookup, h, hb]
  | cons p rest ih =>
    obtain ⟨k0, v0⟩ := p
    by_cases h0 : k0 = k
    · subst h0
      by_cases h : k' = k0
      · have hb : (k' == k0) = true := beq_iff_eq.mpr h
        simp [dictSet, List.lookup, h, hb]
      · have hb : (k' == k0) = false := beq_eq_false_iff_ne.mpr h
        simp [dictSet, List.lookup, h, hb]
    · by_cases h : k' = k0
      · have hb : (k' == k0) = true := beq_iff_eq.mpr h
        have hk : ¬k' = k := fun hc => h0 (h.symm.trans hc)
        simp [dictSet, if_neg h0, List.lookup, hb, hk]
      · have hb : (k' == k0) = false := beq_eq_false_iff_ne.mpr h
        simp [dictSet, if_neg h0, List.lookup, hb, ih]

theorem lookup_dictSet_self {α : Type} (m : List (String × α)) (k : String) (v : α) :
    List.lookup k (dictSet m k v) = some v := by
  simp [lookup_dictSet]

theorem lookup_dictSet_ne {α : Type} (m : List (String × α)) (k k' : String) (v : α)
    (h : k' ≠ k) : List.lookup k' (dictSet m k v) = List.lookup k' m := by
  simp [lookup_dictSet, h]

theorem lookup_dictSet_isSome {α : Type} (m : List (String × α)) (k k' : String) (v : α)
    (h : (List.lookup k' m).isSome) : (List.lookup k' (dictSet m k v)).isSome := by
  rw [lookup_dictSet]
  by_cases hk : k' = k <;> simp [hk, h]

theorem dictSet_forall_values {α : Type} (P : α → Prop) (m : List (String × α))
    (k : String) (v : α) (hm : ∀ p ∈ m, P p.2) (hv : P v) :
    ∀ p ∈ dictSet m k v, P p.2 := by
  induction m with
  | nil => simpa [dictSet] using hv
  | cons q rest ih =>
    obtain ⟨k0, v0⟩ := q
    by_cases h0 : k0 = k
    · subst h0
      simp only [dictSet, if_pos rfl]
      intro p hp
      rcases List.mem_cons.mp hp with h | h
      · subst h; exact hv
      · exact hm p (List.mem_cons_of_mem _ h)
    · simp only [dictSet, if_neg h0]
      intro p hp
      rcases List.mem_cons.mp hp with h | h
      · subst h; exact hm _ (List.mem_cons_self _ _)
      · exact ih (fun q hq => hm q (List.mem_cons_of_mem _ hq)) p h

/-- `setField` is dict assignment on string values. -/
theorem setField_eq_dictSet (e : Event) (k v : String) : setField e k v = dictSet e k v := by
  induction e with
  | nil => rfl
  | cons p rest ih =>
    obtain ⟨k0, v0⟩ := p
    by_cases h : k0 = k <;> simp [setField, dictSet, h, ih]

theorem getField_setField (e : Event) (k k' v : String) :
    getField (setField e k v) k' = if k' = k then some v else getField e k' := by
  show List.lookup k' (setField e k v) = _
  rw [setField_eq_dictSet, lookup_dictSet]
  rfl

/-! ## Change-detector lemmas -/

/-- Membership in the new-events list is exactly set difference of the
canonical serializations. -/
theorem mem_find_new (current : List Event) (last : Snapshot) (site : String)
    (x : Event) :
    x ∈ find_new_events current last site ↔
      (∃ e ∈ current, canonSer e = x) ∧
        ∀ p ∈ (List.lookup site last).getD [], canonSer p ≠ x := by
  simp only [find_new_events, List.mem_filter, List.mem_dedup, List.mem_map,
    decide_eq_true_eq]
  constructor
  · rintro ⟨⟨e, he, hx⟩, hnot⟩
    refine ⟨⟨e, he, hx⟩, ?_⟩
    intro p hp hc
    exact hnot ⟨p, hp, hc⟩
  · rintro ⟨⟨e, he, hx⟩, hnot⟩
    refine ⟨⟨e, he, hx⟩, ?_⟩
    rintro ⟨p, hp, hc⟩
    exact hnot p hp hc

/-- When the stored record list covers every current record, nothing is
new. -/
theorem find_new_covered (current : List Event) (last : Snapshot) (site : String)
    (l : List Event) (hl : List.lookup site last = some l)
    (hcov : ∀ e ∈ current, canonSer e ∈ l.map canonSer) :
    find_new_events current last site = [] := by
  rw [List.eq_nil_iff_forall_not_mem]
  intro x hx
  rw [mem_find_new] at hx
  obtain ⟨⟨e, he, hxe⟩, hnot⟩ := hx
  have := hcov e he
  rw [hl] at hnot
  simp only [List.mem_map] at this
  obtain ⟨p, hp, hpe⟩ := this
  exact hnot p (by simpa using hp) (by rw [hpe, hxe])

/-! ## Site-loop lemmas -/

/-- A failed fetch leaves the loop state untouched. -/
theorem stepSite_fail (net : Net) (last : Snapshot) (acc : LoopAcc) (s : SiteConfig)
    (h : fetch_site_events net s = none) : stepSite net last acc s = acc := by
  simp [stepSite, h]

/-- Sites whose name never succeeds leave the lookups of that name
untouched. -/
theorem processSites_lookup_skip (net : Net) (last : Snapshot) (l : List SiteConfig)
    (n : String) (h : ∀ t ∈ l, t.name = n → fetch_site_events net t = none) :
    ∀ acc : LoopAcc,
      List.lookup n (processSites net last acc l).currentAll =
          List.lookup n acc.currentAll ∧
        List.lookup n (processSites net last acc l).newEvents =
          List.lookup n acc.newEvents := by
  induction l with
  | nil => intro acc; exact ⟨rfl, rfl⟩
  | cons s rest ih =>
    intro acc
    have hrest := ih fun t ht => h t (List.mem_cons_of_mem _ ht)
    have hstep : List.lookup n (stepSite net last acc s).currentAll =
          List.lookup n acc.currentAll ∧
        List.lookup n (stepSite net last acc s).newEvents =
          List.lookup n acc.newEvents := by
      cases hf : fetch_site_events net s with
      | none => rw [stepSite_fail net last acc s hf]; exact ⟨rfl, rfl⟩
      | some evs =>
        have hne : s.name ≠ n := by
          intro hc
          rw [h s (List.mem_cons_self _ _) hc] at hf
          cases hf
        have hn : n ≠ s.name := fun hc => hne hc.symm
        constructor
        · show List.lookup n (stepSite net last acc s).currentAll = _
          simp only [stepSite, hf]
          by_cases hemp : (find_new_events evs last s.name).isEmpty <;>
            simp [hemp, lookup_dictSet_ne _ _ _ _ hn]
        · simp only [stepSite, hf]
          by_cases hemp : (find_new_events evs last s.name).isEmpty <;>
            simp [hemp, lookup_dictSet_ne _ _ _ _ hn]
    simp only [processSites]
    exact ⟨(hrest (stepSite net last acc s)).1.trans hstep.1,
      (hrest (stepSite net last acc s)).2.trans hstep.2⟩

/-- Present keys of `current_all_events` stay present across the loop. -/
theorem processSites_lookup_mono (net : Net) (last : Snapshot) (l : List SiteConfig)
    (n : String) :
    ∀ acc : LoopAcc, (List.lookup n acc.currentAll).isSome →
      (List.lookup n (processSites net last acc l).currentAll).isSome := by
  induction l with
  | nil => intro acc h; exact h
  | cons s rest ih =>
    intro acc h
    simp only [processSites]
    refine ih _ ?_
    cases hf : fetch_site_events net s with
    | none => rw [stepSite_fail net last acc s hf]; exact h
    | some evs =>
      simp only [stepSite, hf]
      by_cases hemp : (find_new_events evs last s.name).isEmpty <;>
        simp only [hemp, Bool.false_eq_true, if_true, if_false, ite_true, ite_false] <;>
        exact lookup_dictSet_isSome _ _ _ _ h

/-- A site that fetches successfully ends up recorded in
`current_all_events`. -/
theorem processSites_success (net : Net) (last : Snapshot) (l : List SiteConfig)
    (s : SiteConfig) (evs : List Event) (hs : s ∈ l)
    (hf : fetch_site_events net s = some evs) :
    ∀ acc : LoopAcc,
      (List.lookup s.name (processSites net last acc l).currentAll).isSome := by
  induction l with
  | nil => cases hs
  | cons t rest ih =>
    intro acc
    simp only [processSites]
    rcases List.mem_cons.mp hs with h | h
    · subst h
      refine processSites_lookup_mono net last rest _ _ ?_
      simp only [stepSite, hf]
      by_cases hemp : (find_new_events evs last s.name).isEmpty <;>
        simp [hemp, lookup_dictSet_self]
    · exact ih h _

/-- With pairwise-distinct site names, a successfully fetched site's entry
in `current_all_events` is exactly its freshly extracted events. -/
theorem processSites_success_lookup (net : Net) (last : Snapshot) (l : List SiteConfig)
    (s : SiteConfig) (evs : List Event) (hnd : (l.map fun t => t.name).Nodup)
    (hs : s ∈ l) (hf : fetch_site_events net s = some evs) :
    ∀ acc : LoopAcc,
      List.lookup s.name (processSites net last acc l).currentAll = some evs := by
  induction l with
  | nil => cases hs
  | cons t rest ih =>
    intro acc
    have hnd' : ((rest.map fun u => u.name)).Nodup := (List.nodup_cons.mp hnd).2
    have hnotin : t.name ∉ rest.map fun u => u.name := (List.nodup_cons.mp hnd).1
    simp only [processSites]
    rcases List.mem_cons.mp hs with h | h
    · subst h
      have hpres := processSites_lookup_skip net last rest s.name
        (fun u hu hc => absurd (by
          rw [← hc]
          exact List.mem_map_of_mem _ hu) hnotin)
        (stepSite net last acc s)
      rw [hpres.1]
      simp only [stepSite, hf]
      by_cases hemp : (find_new_events evs last s.name).isEmpty <;>
        simp [hemp, lookup_dictSet_self]
    · exact ih hnd' h _

/-- Every key of `all_new_events` is also a key of `current_all_events`. -/
theorem processSites_keys_sub (net : Net) (last : Snapshot) (l : List SiteConfig) :
    ∀ acc : LoopAcc,
      (∀ n, (List.lookup n acc.newEvents).isSome →
        (List.lookup n acc.currentAll).isSome) →
      ∀ n, (List.lookup n (processSites net last acc l).newEvents).isSome →
        (List.lookup n (processSites net last acc l).currentAll).isSome := by
  induction l with
  | nil => intro acc hacc; exact hacc
  | cons s rest ih =>
    intro acc hacc
    simp only [processSites]
    refine ih _ ?_
    intro n hn
    cases hf : fetch_site_events net s with
    | none =>
      rw [stepSite_fail net last acc s hf] at hn ⊢
      exact hacc n hn
    | some evs =>
      simp only [stepSite, hf] at hn ⊢
      by_cases hemp : (find_new_events evs last s.name).isEmpty
      · simp only [hemp, ite_true] at hn ⊢
        by_cases hns : n = s.name
        · subst hns; simp [lookup_dictSet_self]
        · rw [lookup_dictSet_ne _ _ _ _ hns]
          exact hacc n hn
      · simp only [hemp, Bool.false_eq_true, ite_false] at hn ⊢
        by_cases hns : n = s.name
        · subst hns; simp [lookup_dictSet_self]
        · rw [lookup_dictSet_ne _ _ _ _ hns] at hn ⊢
          exact hacc n hn

/-- Every value stored in `all_new_events` is a non-empty list. -/
theorem processSites_values_nonempty (net : Net) (last : Snapshot)
    (l : List SiteConfig) :
    ∀ acc : LoopAcc, (∀ p ∈ acc.newEvents, p.2 ≠ []) →
      ∀ p ∈ (processSites net last acc l).newEvents, p.2 ≠ [] := by
  induction l with
  | nil => intro acc hacc; exact hacc
  | cons s rest ih =>
    intro acc hacc
    simp only [processSites]
    refine ih _ ?_
    cases hf : fetch_site_events net s with
    | none => rw [stepSite_fail net last acc s hf]; exact hacc
    | some evs =>
      simp only [stepSite, hf]
      by_cases hemp : (find_new_events evs last s.name).isEmpty
      · simpa [hemp] using hacc
      · simp only [hemp, Bool.false_eq_true, ite_false]
        exact dictSet_forall_values (fun w => w ≠ []) _ _ _ hacc
          (by simpa [List.isEmpty_iff] using hemp)

/-- When nothing is new for any successfully fetched site, the loop adds
nothing to `all_new_events`. -/
theorem processSites_no_new (net : Net) (last : Snapshot) (l : List SiteConfig)
    (h : ∀ s ∈ l, ∀ evs, fetch_site_events net s = some evs →
      find_new_events evs last s.name = []) :
    ∀ acc : LoopAcc,
      (processSites net last acc l).newEvents = acc.newEvents := by
  induction l with
  | nil => intro acc; rfl
  | cons s rest ih =>
    intro acc
    have hrest := ih fun t ht => h t (List.mem_cons_of_mem _ ht)
    simp only [processSites]
    rw [hrest]
    cases hf : fetch_site_events net s with
    | none => rw [stepSite_fail net last acc s hf]
    | some evs =>
      have hne : (find_new_events evs last s.name).isEmpty := by
        rw [h s (List.mem_cons_self _ _) evs hf]
        rfl
      simp [stepSite, hf, hne]

/-! ## Run-level lemmas -/

theorem main_currentAll (sites : List SiteConfig) (net : Net) (last : Snapshot) :
    (main sites net last).currentAll =
      (processSites net last ⟨[], []⟩ (sites.filter fun s => s.enabled)).currentAll := rfl

theorem main_newEvents (sites : List SiteConfig) (net : Net) (last : Snapshot) :
    (main sites net last).newEvents =
      (processSites net last ⟨[], []⟩ (sites.filter fun s => s.enabled)).newEvents := rfl

theorem main_totalNew (sites : List SiteConfig) (net : Net) (last : Snapshot) :
    (main sites net last).totalNew =
      ((main sites net last).newEvents.map fun p => p.2.length).sum := rfl

theorem main_hasUpdates (sites : List SiteConfig) (net : Net) (last : Snapshot) :
    (main sites net last).hasUpdates = decide (0 < (main sites net last).totalNew) := rfl

theorem main_reportWritten (sites : List SiteConfig) (net : Net) (last : Snapshot) :
    (main sites net last).reportWritten =
      decide (0 < (main sites net last).totalNew) := rfl

theorem main_saved (sites : List SiteConfig) (net : Net) (last : Snapshot) :
    (main sites net last).saved =
      if 0 < (main sites net last).totalNew then (main sites net last).currentAll
      else if (main sites net last).currentAll.isEmpty then last
      else (main sites net last).currentAll := rfl

/-- `total_new` is positive exactly when `all_new_events` is non-empty. -/
theorem main_totalNew_pos_iff (sites : List SiteConfig) (net : Net) (last : Snapshot) :
    0 < (main sites net last).totalNew ↔ (main sites net last).newEvents ≠ [] := by
  rw [main_totalNew]
  constructor
  · intro h hne
    rw [hne] at h
    simp at h
  · intro h
    have hvals := processSites_values_nonempty net last
      (sites.filter fun s => s.enabled) ⟨[], []⟩ (by intro p hp; cases hp)
    cases hne : (main sites net last).newEvents with
    | nil => exact absurd hne h
    | cons p rest =>
      have hp : p.2 ≠ [] := by
        refine hvals p ?_
        rw [← main_newEvents, hne]
        exact List.mem_cons_self _ _
      have hlen : 0 < p.2.length := List.length_pos.mpr hp
      simp only [hne, List.map_cons, List.sum_cons]
      omega

/-- An empty `current_all_events` forces an empty `all_new_events`. -/
theorem main_newEvents_nil_of_currentAll_nil (sites : List SiteConfig) (net : Net)
    (last : Snapshot) (h : (main sites net last).currentAll = []) :
    (main sites net last).newEvents = [] := by
  have hkeys := processSites_keys_sub net last (sites.filter fun s => s.enabled)
    ⟨[], []⟩ (by intro n hn; cases hn)
  cases hne : (main sites net last).newEvents with
  | nil => rfl
  | cons p rest =>
    exfalso
    obtain ⟨k, v⟩ := p
    have hsome : (List.lookup k
        ((processSites net last ⟨[], []⟩ (sites.filter fun s => s.enabled)).newEvents)).isSome := by
      rw [← main_newEvents, hne]
      simp [List.lookup]
    have hca := hkeys k hsome
    rw [← main_currentAll, h] at hca
    simp [List.lookup] at hca

/-- What ends up in `last_events.json`: the freshly observed mapping, or
the previous file contents when nothing at all was fetched. -/
theorem main_saved_cases (sites : List SiteConfig) (net : Net) (last : Snapshot) :
    (main sites net last).saved = (main sites net last).currentAll ∨
      ((main sites net last).currentAll = [] ∧ (main sites net last).saved = last) := by
  rw [main_saved]
  by_cases h1 : 0 < (main sites net last).totalNew
  · left; simp [h1]
  · by_cases h2 : (main sites net last).currentAll.isEmpty
    · right
      refine ⟨List.isEmpty_iff.mp h2, ?_⟩
      simp [h1, h2]
    · left; simp [h1, h2]

/-! ## Extraction lemmas -/

theorem findSome?_skip {α β : Type} (f : α → Option β) (l1 l2 : List α)
    (h1 : ∀ y ∈ l1, f y = none) :
    (l1 ++ l2).findSome? f = l2.findSome? f := by
  induction l1 with
  | nil => rfl
  | cons a t ih =>
    have ha := h1 a (List.mem_cons_self _ _)
    have ht := ih fun y hy => h1 y (List.mem_cons_of_mem _ hy)
    simp [List.findSome?, ha, ht]

theorem getField_extractEvent_title (url : String) (sels : Selectors) (c : Node) :
    getField (extractEvent url sels c) "title" =
      (firstMatch c sels.title).map fun n => getTextStrip n := by
  unfold extractEvent
  cases firstMatch c sels.title <;>
    cases firstMatch c sels.date <;>
      cases firstMatch c sels.description <;>
        cases firstLink c sels.link <;> rfl

theorem getField_extractEvent_date (url : String) (sels : Selectors) (c : Node) :
    getField (extractEvent url sels c) "date" =
      (firstMatch c sels.date).map fun n => getTextStrip n := by
  unfold extractEvent
  cases firstMatch c sels.title <;>
    cases firstMatch c sels.date <;>
      cases firstMatch c sels.description <;>
        cases firstLink c sels.link <;> rfl

theorem getField_extractEvent_description (url : String) (sels : Selectors) (c : Node) :
    getField (extractEvent url sels c) "description" =
      (firstMatch c sels.description).map fun n => pyTake 300 (getTextStrip n) := by
  unfold extractEvent
  cases firstMatch c sels.title <;>
    cases firstMatch c sels.date <;>
      cases firstMatch c sels.description <;>
        cases firstLink c sels.link <;> rfl

theorem getField_extractEvent_link (url : String) (sels : Selectors) (c : Node) :
    getField (extractEvent url sels c) "link" =
      (firstLink c sels.link).map fun h => urljoin url h := by
  unfold extractEvent
  cases firstMatch c sels.title <;>
    cases firstMatch c sels.date <;>
      cases firstMatch c sels.description <;>
        cases firstLink c sels.link <;> rfl

/-! ## String-length lemmas -/

theorem length_pyTake (n : Nat) (s : String) : (pyTake n s).length = min n s.length := by
  show (s.data.take n).length = min n s.data.length
  exact List.length_take n s.data

theorem length_flatMap_hexByte (l : List Nat) : (l.flatMap hexByte).length = 2 * l.length := by
  induction l with
  | nil => rfl
  | cons b t ih =>
    show (hexByte b ++ t.flatMap hexByte).length = _
    simp [hexByte, ih]
    omega

theorem length_md5Digest (m : List Nat) : (md5Digest m).length = 16 := by
  simp [md5Digest, wordLE]

theorem length_md5Hex (s : String) : (md5Hex s).length = 32 := by
  show ((md5Digest (strBytes s)).flatMap hexByte).length = 32
  rw [length_flatMap_hexByte, length_md5Digest]

theorem pyTake16_md5Hex_length (t : String) : (pyTake 16 (md5Hex t)).length = 16 := by
  rw [length_pyTake, length_md5Hex]
  rfl

theorem pyTake16_md5Hex_ne (t : String) : pyTake 16 (md5Hex t) ≠ "" := by
  intro h
  have hl := pyTake16_md5Hex_length t
  rw [h] at hl
  cases hl

/-! ## The claims -/

/-- C1: for every site, membership in the new-events result is exactly the
set difference of canonical field-order-independent serializations —
a record is reported precisely when some current record serializes to it
and no stored record of the site does — and consequently a record equal in
every field to a previously stored one never appears in the result, its
relative order notwithstanding. -/
theorem claim1_set_difference (current : List Event) (last : Snapshot) (site : String) :
    (∀ x : Event, x ∈ find_new_events current last site ↔
        ((∃ e ∈ current, canonSer e = x) ∧
          ∀ p ∈ (List.lookup site last).getD [], canonSer p ≠ x)) ∧
      ∀ e ∈ current,
        (∃ p ∈ (List.lookup site last).getD [], canonSer p = canonSer e) →
          canonSer e ∉ find_new_events current last site := by
  refine ⟨fun x => mem_find_new current last site x, ?_⟩
  rintro e he ⟨p, hp, hpe⟩ hmem
  rw [mem_find_new] at hmem
  exact hmem.2 p hp hpe

/-- Witness for C1 at a concrete record and snapshot. -/
theorem claim1_witness :
    canonSer evB ∈ find_new_events [evB] [] "B" ∧
      canonSer evB ∉ find_new_events [evB] [("B", [evB])] "B" := by
  constructor
  · exact ((claim1_set_difference [evB] [] "B").1 (canonSer evB)).mpr
      ⟨⟨evB, List.mem_cons_self _ _, rfl⟩, by intro p hp; cases hp⟩
  · exact (claim1_set_difference [evB] [("B", [evB])] "B").2 evB
      (List.mem_cons_self _ _)
      ⟨evB, show evB ∈ [evB] from List.mem_cons_self _ _, rfl⟩

/-- C6: a missing snapshot file loads as the empty mapping, a site absent
from the prior snapshot has every currently extracted record reported as
new, and such a site is reported unchanged only when it currently has no
records at all. -/
theorem claim6_first_observation (current : List Event) (snap : Snapshot)
    (site : String) (h : List.lookup site snap = none) :
    List.lookup site (load_last_events none) = none ∧
      (∀ e ∈ current, canonSer e ∈ find_new_events current snap site) ∧
      (find_new_events current snap site = [] ↔ current = []) := by
  have hmem : ∀ e ∈ current, canonSer e ∈ find_new_events current snap site := by
    intro e he
    rw [mem_find_new]
    refine ⟨⟨e, he, rfl⟩, ?_⟩
    rw [h]
    intro p hp
    cases hp
  refine ⟨rfl, hmem, ?_, ?_⟩
  · intro hnil
    cases hcur : current with
    | nil => rfl
    | cons e t =>
      exfalso
      have := hmem e (by rw [hcur]; exact List.mem_cons_self _ _)
      rw [hnil] at this
      cases this
  · intro hnil
    rw [hnil]
    rfl

/-- Witness for C6 at a concrete snapshot lacking the site. -/
theorem claim6_witness :
    canonSer evB ∈ find_new_events [evB] [("A", [evB])] "B" ∧
      (find_new_events [] [("A", [evB])] "B" = [] ↔ ([] : List Event) = []) := by
  refine ⟨(claim6_first_observation [evB] [("A", [evB])] "B" rfl).2.1 evB
    (List.mem_cons_self _ _),
    (claim6_first_observation [] [("A", [evB])] "B" rfl).2.2⟩

/-- C4: with the configured site names pairwise distinct, feeding the
snapshot a run saved back into a second run over the same pages yields an
empty new-events mapping, a zero update count, and a false has_updates
flag. -/
theorem claim4_idempotence (sites : List SiteConfig) (net : Net) (last : Snapshot)
    (hnd : ((sites.filter fun s => s.enabled).map fun s => s.name).Nodup) :
    (main sites net (main sites net last).saved).newEvents = [] ∧
      (main sites net (main sites net last).saved).totalNew = 0 ∧
      (main sites net (main sites net last).saved).hasUpdates = false := by
  have hkey : ∀ s ∈ sites.filter (fun s => s.enabled), ∀ evs,
      fetch_site_events net s = some evs →
        find_new_events evs (main sites net last).saved s.name = [] := by
    intro s hs evs hf
    rcases main_saved_cases sites net last with hc | ⟨hnil, hlast⟩
    · have hlook : List.lookup s.name (main sites net last).currentAll = some evs := by
        rw [main_currentAll]
        exact processSites_success_lookup net last _ s evs hnd hs hf ⟨[], []⟩
      refine find_new_covered evs _ s.name evs ?_ ?_
      · rw [hc]; exact hlook
      · intro e he; exact List.mem_map_of_mem _ he
    · exfalso
      have hsome := processSites_success net last _ s evs hs hf ⟨[], []⟩
      rw [← main_currentAll, hnil] at hsome
      simp [List.lookup] at hsome
  have hne : (main sites net (main sites net last).saved).newEvents = [] := by
    rw [main_newEvents]
    exact processSites_no_new net _ _ hkey ⟨[], []⟩
  have ht : (main sites net (main sites net last).saved).totalNew = 0 := by
    rw [main_totalNew, hne]
    rfl
  refine ⟨hne, ht, ?_⟩
  rw [main_hasUpdates, ht]
  rfl

/-- Witness for C4 at a concrete one-site configuration. -/
theorem claim4_witness :
    (main [siteB] netB (main [siteB] netB []).saved).totalNew = 0 ∧
      (main [siteB] netB (main [siteB] netB []).saved).hasUpdates = false := by
  have h := claim4_idempotence [siteB] netB [] (by decide)
  exact ⟨h.2.1, h.2.2⟩

/-- C9: every record a successful per-site fetch returns carries the
configured site name and URL in its source and source_url fields, and
since the detector compares whole canonical serializations, any current
record whose source field differs from that of every stored record of the
site is reported as new. -/
theorem claim9_source_tagging (net : Net) (cfg : SiteConfig) (evs : List Event)
    (h : fetch_site_events net cfg = some evs) :
    (∀ e ∈ evs, getField e "source" = some cfg.name ∧
        getField e "source_url" = some cfg.url) ∧
      ∀ (current : List Event) (last : Snapshot) (site nm : String),
        (∀ p ∈ (List.lookup site last).getD [],
          List.lookup "source" (canonSer p) ≠ some nm) →
        ∀ e ∈ current, List.lookup "source" (canonSer e) = some nm →
          canonSer e ∈ find_new_events current last site := by
  constructor
  · intro e he
    have hev : ∃ e0 : Event,
        e = setField (setField e0 "source" cfg.name) "source_url" cfg.url := by
      cases hnet : net cfg.url with
      | none => rw [fetch_site_events, hnet] at h; cases h
      | some page =>
        by_cases hraw : page.raw = ""
        · rw [fetch_site_events, hnet] at h
          simp [hraw] at h
        · rw [fetch_site_events, hnet] at h
          simp only [if_neg hraw, Option.some.injEq] at h
          rw [← h] at he
          obtain ⟨e0, _, he0⟩ := List.mem_map.mp he
          exact ⟨e0, he0.symm⟩
    obtain ⟨e0, he0⟩ := hev
    subst he0
    constructor
    · rw [getField_setField]
      simp only [if_neg (by decide : ¬("source" : String) = "source_url")]
      rw [getField_setField]
      simp
    · rw [getField_setField]
      simp
  · intro current last site nm hlast e he hsrc
    rw [mem_find_new]
    refine ⟨⟨e, he, rfl⟩, ?_⟩
    intro p hp hc
    exact hlast p hp (by rw [hc]; exact hsrc)

/-- Witness for C9 at a concrete site and network. -/
theorem claim9_witness :
    getField evB "source" = some "B" ∧ getField evB "source_url" = some "http://b/" := by
  exact (claim9_source_tagging netB siteB [evB] rfl).1 evB (List.mem_cons_self _ _)

/-- C10: an absent page and an empty response body both yield the empty
extraction result (no fallback record), while any non-empty content yields
at least one record. -/
theorem claim10_empty_content (page : Page) (url : String) (sels : Selectors) :
    extract_events_generic none url sels = [] ∧
      (page.raw = "" → extract_events_generic (some page) url sels = []) ∧
      (page.raw ≠ "" → extract_events_generic (some page) url sels ≠ []) := by
  refine ⟨rfl, ?_, ?_⟩
  · intro h
    simp [extract_events_generic, h]
  · intro h
    simp only [extract_events_generic, if_neg h]
    by_cases hz : (structuredEvents page.doc url sels).isEmpty
    · simp [hz]
    · simp only [hz, Bool.false_eq_true, ite_false]
      simpa [List.isEmpty_iff] using hz

/-- Witness for C10 at an empty-body page and a non-empty page. -/
theorem claim10_witness :
    extract_events_generic (some pageE) "u" noSelectors = [] ∧
      extract_events_generic (some pageS) "u" noSelectors ≠ [] := by
  exact ⟨(claim10_empty_content pageE "u" noSelectors).2.1 rfl,
    (claim10_empty_content pageS "u" noSelectors).2.2 (by decide)⟩

/-- C2 counterexample: site A's fetch fails while site B succeeds with an
unchanged page; the prior snapshot holds an entry for A, the run records
current events, yet the persisted snapshot after the run no longer
contains A's entry — the stale entry is purged, not left untouched. -/
theorem claim2_counterexample :
    List.lookup "A" ([("A", [evB]), ("B", [evB])] : Snapshot) = some [evB] ∧
      (main [siteA, siteB] netB [("A", [evB]), ("B", [evB])]).currentAll ≠ [] ∧
      List.lookup "A" (main [siteA, siteB] netB [("A", [evB]), ("B", [evB])]).saved =
        none := by
  refine ⟨rfl, ?_, ?_⟩ <;> decide

/-- C2 amended: a site whose name never fetches successfully contributes no
new events and no current entry, and the remaining sites are still
processed; but the snapshot file is replaced wholesale by
`current_all_events` whenever that dict is non-empty (purging the failed
site's stale entry), and is left untouched only when no site at all was
fetched. -/
theorem claim2_amended (sites : List SiteConfig) (net : Net) (last : Snapshot)
    (s : SiteConfig) (_hs : s ∈ sites)
    (hall : ∀ t ∈ sites, t.name = s.name → fetch_site_events net t = none) :
    List.lookup s.name (main sites net last).newEvents = none ∧
      List.lookup s.name (main sites net last).currentAll = none ∧
      ((main sites net last).currentAll ≠ [] →
        (main sites net last).saved = (main sites net last).currentAll ∧
          List.lookup s.name (main sites net last).saved = none) ∧
      ((main sites net last).currentAll = [] → (main sites net last).saved = last) ∧
      ∀ t ∈ sites, t.enabled = true → ∀ evs, fetch_site_events net t = some evs →
        (List.lookup t.name (main sites net last).currentAll).isSome := by
  have hskip := processSites_lookup_skip net last (sites.filter fun t => t.enabled)
    s.name (fun t ht => hall t (List.mem_filter.mp ht).1) ⟨[], []⟩
  have hca : List.lookup s.name (main sites net last).currentAll = none := by
    rw [main_currentAll, hskip.1]
    rfl
  have hne : List.lookup s.name (main sites net last).newEvents = none := by
    rw [main_newEvents, hskip.2]
    rfl
  have hsv : (main sites net last).currentAll ≠ [] →
      (main sites net last).saved = (main sites net last).currentAll := by
    intro hnonnil
    rcases main_saved_cases sites net last with hc | ⟨hnil, _⟩
    · exact hc
    · exact absurd hnil hnonnil
  refine ⟨hne, hca, ?_, ?_, ?_⟩
  · intro hnonnil
    refine ⟨hsv hnonnil, ?_⟩
    rw [hsv hnonnil]
    exact hca
  · intro hnil
    have hznew := main_newEvents_nil_of_currentAll_nil sites net last hnil
    have hz : (main sites net last).totalNew = 0 := by
      rw [main_totalNew, hznew]
      rfl
    rw [main_saved, hz, hnil]
    rfl
  · intro t ht hen evs hf
    rw [main_currentAll]
    exact processSites_success net last _ t evs
      (List.mem_filter.mpr ⟨ht, hen⟩) hf ⟨[], []⟩

/-- Witness for C2 (amended) at the concrete two-site run. -/
theorem claim2_witness :
    List.lookup "A" (main [siteA, siteB] netB []).newEvents = none ∧
      List.lookup "A" (main [siteA, siteB] netB []).currentAll = none ∧
      (List.lookup "B" (main [siteA, siteB] netB []).currentAll).isSome := by
  have h := claim2_amended [siteA, siteB] netB [] siteA (List.mem_cons_self _ _) ?hall
  case hall =>
    intro t ht hname
    rcases List.mem_cons.mp ht with h1 | h1
    · rw [h1]; rfl
    · rcases List.mem_cons.mp h1 with h2 | h2
      · rw [h2] at hname; exact absurd hname (by decide)
      · cases h2
  refine ⟨h.1, h.2.1, ?_⟩
  exact h.2.2.2.2 siteB (List.mem_cons_of_mem _ (List.mem_cons_self _ _)) rfl [evB] rfl

/-- C3 counterexample: on a page whose only text sits inside a script
element, the fallback record's preview is built from text that includes
the script contents, whereas the preview the claim describes (built from
the scripts/styles-excluded text) would be empty. -/
theorem claim3_counterexample :
    ((extract_events_generic (some pageS) "u" noSelectors).map
        fun e => getField e "content_preview") = [some "hello"] ∧
      replaceNL (pyTake 500 (getTextNoScript pageS.doc)) = "" := by
  constructor <;> decide

/-- C3 amended: for non-empty content from which zero structured candidates
survive, extraction returns exactly one fallback record whose preview is
the first 500 characters of the whole-page text as `get_text` returns it
(script and style text included) with newlines flattened to spaces, and
whose hash is the non-empty 16-character prefix of the MD5 hexdigest of
that same text. -/
theorem claim3_amended (page : Page) (url : String) (sels : Selectors)
    (hraw : page.raw ≠ "") (hz : structuredEvents page.doc url sels = []) :
    extract_events_generic (some page) url sels =
        [[("page_hash", pyTake 16 (md5Hex (getText page.doc))),
          ("content_preview", replaceNL (pyTake 500 (getText page.doc)))]] ∧
      pyTake 16 (md5Hex (getText page.doc)) ≠ "" ∧
      (pyTake 16 (md5Hex (getText page.doc))).length = 16 := by
  refine ⟨?_, pyTake16_md5Hex_ne _, pyTake16_md5Hex_length _⟩
  simp [extract_events_generic, hraw, hz, fallbackRecord]

/-- Witness for C3 (amended) at the concrete script-only page. -/
theorem claim3_witness :
    extract_events_generic (some pageS) "u" noSelectors =
        [[("page_hash", pyTake 16 (md5Hex (getText pageS.doc))),
          ("content_preview", replaceNL (pyTake 500 (getText pageS.doc)))]] ∧
      pyTake 16 (md5Hex (getText pageS.doc)) ≠ "" := by
  have h := claim3_amended pageS "u" noSelectors (by decide) (by decide)
  exact ⟨h.1, h.2.1⟩

/-- C5 counterexample: a run that finds no new events (the page is
unchanged against the snapshot) processes a site yet writes no report
file, contradicting the claim that a report artifact is written on every
run. -/
theorem claim5_counterexample :
    (main [siteB] netB [("B", [evB])]).reportWritten = false ∧
      (main [siteB] netB [("B", [evB])]).currentAll ≠ [] := by
  constructor <;> decide

/-- C5 amended: the report file is written exactly on runs that detect at
least one new event (equivalently, when the has_updates flag is true); in
the no-updates case no report file is written at all. -/
theorem claim5_amended (sites : List SiteConfig) (net : Net) (last : Snapshot) :
    ((main sites net last).reportWritten = true ↔
        (main sites net last).newEvents ≠ []) ∧
      (main sites net last).reportWritten = (main sites net last).hasUpdates := by
  constructor
  · rw [main_reportWritten]
    simp only [decide_eq_true_eq]
    exact main_totalNew_pos_iff sites net last
  · rw [main_reportWritten, main_hasUpdates]

/-- Witness for C5 (amended) at a concrete run with a fresh site. -/
theorem claim5_witness : (main [siteB] netB []).reportWritten = true := by
  exact ((claim5_amended [siteB] netB []).1).mpr (by decide)

/-- C7 counterexample: with the container selector list ordered against the
document, the accumulated candidate list is in selector-major order, not
the document order the claim prescribes for the capped candidate set. -/
theorem claim7_counterexample :
    (candidateContainers docO [isTag "section", isTag "article"]).map nodeTag =
        ["section", "article"] ∧
      (candidatesClaim docO [isTag "section", isTag "article"]).map nodeTag =
        ["article", "section"] := by
  constructor <;> rfl

/-- C7 amended: matches of every configured selector are accumulated (in
document order per selector, concatenated in selector order — not global
document order), the class-vocabulary heuristic applies exactly when that
accumulation is empty, and the resulting candidate list is the first 20
entries of whichever list applies. -/
theorem claim7_amended (doc : List Node) (sels : Selectors) :
    ((sels.container.flatMap fun s => select doc s).isEmpty = false →
        candidateContainers doc sels.container =
          (sels.container.flatMap fun s => select doc s).take 20) ∧
      ((sels.container.flatMap fun s => select doc s).isEmpty = true →
        candidateContainers doc sels.container = (fallbackContainers doc).take 20) ∧
      (∀ s ∈ sels.container, ∀ n ∈ select doc s,
        n ∈ sels.container.flatMap fun s0 => select doc s0) ∧
      (∀ n, n ∈ fallbackContainers doc ↔
        n ∈ elemsList doc ∧
          ((nodeTag n == "article" || nodeTag n == "div") && classVocabMatch n) = true) ∧
      (∀ s : Sel, List.Sublist (select doc s) (elemsList doc)) ∧
      (candidateContainers doc sels.container).length ≤ 20 := by
  refine ⟨?_, ?_, ?_, ?_, ?_, ?_⟩
  · intro h
    simp [candidateContainers, h]
  · intro h
    simp [candidateContainers, h]
  · intro s hs n hn
    exact List.mem_flatMap.mpr ⟨s, hs, hn⟩
  · intro n
    exact List.mem_filter
  · intro s
    exact List.filter_sublist _
  · simp only [candidateContainers]
    by_cases h : (sels.container.flatMap fun s => select doc s).isEmpty <;>
      simp [h, List.length_take]

/-- Witness for C7 (amended) at the concrete two-container page. -/
theorem claim7_witness :
    candidateContainers docO [isTag "section", isTag "article"] =
      ([isTag "section", isTag "article"].flatMap fun s => select docO s).take 20 := by
  exact (claim7_amended docO ⟨[isTag "section", isTag "article"], [], [], [], []⟩).1 rfl

/-- C8 counterexample: with two link selectors, the first matching an
anchor without an href and the second an anchor with one, the extracted
link comes from the second selector — the loop keeps trying selectors past
the first matched element, contrary to the claim — while the claim's
first-element-wins reading yields no link at all. -/
theorem claim8_counterexample :
    getField (extractEvent "http://h/a" selsL cL) "link" = some "http://e/x" ∧
      firstLinkClaim cL selsL.link = none := by
  constructor <;> rfl

/-- C8 amended: for title, date and description the first selector whose
`select_one` matches wins and no further selectors are tried; the
description is the matched text truncated to at most 300 characters; for
the link, the first selector whose matched element carries a non-empty
href wins (selectors whose element matches but lacks an href are skipped),
and its href is resolved against the page URL; and every record surviving
into the structured-events list has a non-empty title. -/
theorem claim8_amended (url : String) (sels : Selectors) (c : Node)
    (ts1 ts2 das1 das2 ds1 ds2 ls1 ls2 : List Sel)
    (st sa sd sl : Sel) (nt na nd : Node) (hrf : String)
    (hT : sels.title = ts1 ++ st :: ts2)
    (hT1 : ∀ s ∈ ts1, selectOneIn c s = none)
    (hTm : selectOneIn c st = some nt)
    (hA : sels.date = das1 ++ sa :: das2)
    (hA1 : ∀ s ∈ das1, selectOneIn c s = none)
    (hAm : selectOneIn c sa = some na)
    (hD : sels.description = ds1 ++ sd :: ds2)
    (hD1 : ∀ s ∈ ds1, selectOneIn c s = none)
    (hDm : selectOneIn c sd = some nd)
    (hL : sels.link = ls1 ++ sl :: ls2)
    (hL1 : ∀ s ∈ ls1, linkVal c s = none)
    (hLm : linkVal c sl = some hrf) :
    getField (extractEvent url sels c) "title" = some (getTextStrip nt) ∧
      getField (extractEvent url sels c) "date" = some (getTextStrip na) ∧
      getField (extractEvent url sels c) "description" =
        some (pyTake 300 (getTextStrip nd)) ∧
      (∀ d, getField (extractEvent url sels c) "description" = some d →
        d.length ≤ 300) ∧
      getField (extractEvent url sels c) "link" = some (urljoin url hrf) ∧
      ∀ (doc : List Node) (e : Event), e ∈ structuredEvents doc url sels →
        ∃ t, getField e "title" = some t ∧ t ≠ "" := by
  have hT' : firstMatch c sels.title = some nt := by
    rw [hT]
    unfold firstMatch
    rw [findSome?_skip _ ts1 _ hT1]
    simp [List.findSome?, hTm]
  have hA' : firstMatch c sels.date = some na := by
    rw [hA]
    unfold firstMatch
    rw [findSome?_skip _ das1 _ hA1]
    simp [List.findSome?, hAm]
  have hD' : firstMatch c sels.description = some nd := by
    rw [hD]
    unfold firstMatch
    rw [findSome?_skip _ ds1 _ hD1]
    simp [List.findSome?, hDm]
  have hL' : firstLink c sels.link = some hrf := by
    rw [hL]
    unfold firstLink
    rw [findSome?_skip _ ls1 _ hL1]
    simp [List.findSome?, hLm]
  refine ⟨?_, ?_, ?_, ?_, ?_, ?_⟩
  · rw [getField_extractEvent_title, hT']; rfl
  · rw [getField_extractEvent_date, hA']; rfl
  · rw [getField_extractEvent_description, hD']; rfl
  · intro d hd
    rw [getField_extractEvent_description, hD'] at hd
    have hdd : d = pyTake 300 (getTextStrip nd) := by
      injection hd with h0
      exact h0.symm
    rw [hdd, length_pyTake]
    exact min_le_left _ _
  · rw [getField_extractEvent_link, hL']; rfl
  · intro doc e he
    have := (List.mem_filter.mp he).2
    simp only [titleOk, decide_eq_true_eq] at this
    cases hgf : getField e "title" with
    | none =>
      exfalso
      rw [hgf] at this
      exact this rfl
    | some t =>
      refine ⟨t, rfl, ?_⟩
      rw [hgf] at this
      simpa using this

/-- Witness for C8 (amended) at the concrete four-field container. -/
theorem claim8_witness :
    getField (extractEvent "http://h/a" selsW cW) "title" =
        some (getTextStrip (Node.elem "h2" [] none [Node.text "T"])) ∧
      getField (extractEvent "http://h/a" selsW cW) "link" =
        some (urljoin "http://h/a" "http://e/x") := by
  have h := claim8_amended "http://h/a" selsW cW [] [] [] [] [] [] [] []
    (isTag "h2") (isTag "span") (isTag "p") (isTag "a")
    (Node.elem "h2" [] none [Node.text "T"])
    (Node.elem "span" ["date"] none [Node.text "D"])
    (Node.elem "p" [] none [Node.text "long text"]) "http://e/x"
    rfl (by intro s hs; cases hs) rfl
    rfl (by intro s hs; cases hs) rfl
    rfl (by intro s hs; cases hs) rfl
    rfl (by intro s hs; cases hs) rfl
  exact ⟨h.1, h.2.2.2.2.1⟩

end Monitor
